import Mathlib

/-!
Shallow embedding of httpstan's model-compilation cache and load pipeline
(`httpstan/models.py`, `httpstan/app.py`).

Machine words are `Nat` with explicit `% 2^64`; byte strings are `List Nat`
(each element < 256 by construction); fallible Python code returns `Except`;
the process state touched by the loader (scratch directories on disk and
`sys.path`) is threaded explicitly, together with a trace of observable
events (directory creation/removal, file writes, dynamic imports, native
toolchain runs).
-/

namespace Httpstan

/-! ### Bytes and UTF-8 (`str.encode()`) -/

/-- UTF-8 encoding of a single Unicode scalar value, as byte values.
Mirrors CPython's `str.encode()` for one character. -/
def utf8EncodeCharNat (c : Char) : List Nat :=
  let n := c.toNat
  if n < 0x80 then [n]
  else if n < 0x800 then
    [0xC0 ||| (n >>> 6), 0x80 ||| (n &&& 0x3F)]
  else if n < 0x10000 then
    [0xE0 ||| (n >>> 12), 0x80 ||| ((n >>> 6) &&& 0x3F), 0x80 ||| (n &&& 0x3F)]
  else
    [0xF0 ||| (n >>> 18), 0x80 ||| ((n >>> 12) &&& 0x3F),
     0x80 ||| ((n >>> 6) &&& 0x3F), 0x80 ||| (n &&& 0x3F)]

/-- Python `s.encode()`: UTF-8 bytes of a Python string. -/
def utf8Bytes (s : String) : List Nat :=
  s.data.flatMap utf8EncodeCharNat

/-! ### BLAKE2b (RFC 7693), as used by `hashlib.blake2b(digest_size=5)` -/

def MASK64 : Nat := 2 ^ 64

def add64 (a b : Nat) : Nat := (a + b) % MASK64

def rotr64 (x n : Nat) : Nat := (x >>> n) ||| ((x <<< (64 - n)) % MASK64)

/-- BLAKE2b initialization vector (RFC 7693 §2.6). -/
def blakeIV : List Nat :=
  [0x6a09e667f3bcc908, 0xbb67ae8584caa73b] ++
    [0x3c6ef372fe94f82b, 0xa54ff53a5f1d36f1] ++
    [0x510e527fade682d1, 0x9b05688c2b3e6c1f] ++
    [0x1f83d9abfb41bd6b, 0x5be0cd19137e2179]

/-- BLAKE2 message schedule SIGMA (RFC 7693 §2.7). -/
def blakeSigma : List (List Nat) :=
  [[0, 1, 2, 3, 4, 5, 6, 7, 8, 9, 10, 11, 12, 13, 14, 15],
   [14, 10, 4, 8, 9, 15, 13, 6, 1, 12, 0, 2, 11, 7, 5, 3],
   [11, 8, 12, 0, 5, 2, 15, 13, 10, 14, 3, 6, 7, 1, 9, 4],
   [7, 9, 3, 1, 13, 12, 11, 14, 2, 6, 5, 10, 4, 0, 15, 8],
   [9, 0, 5, 7, 2, 4, 10, 15, 14, 1, 11, 12, 6, 8, 3, 13],
   [2, 12, 6, 10, 0, 11, 8, 3, 4, 13, 7, 5, 15, 14, 1, 9],
   [12, 5, 1, 15, 14, 13, 4, 10, 0, 7, 6, 3, 9, 2, 8, 11],
   [13, 11, 7, 14, 12, 1, 3, 9, 5, 0, 15, 4, 8, 6, 2, 10],
   [6, 15, 14, 9, 11, 3, 0, 8, 12, 2, 13, 7, 1, 4, 10, 5],
   [10, 2, 8, 4, 7, 6, 1, 5, 15, 11, 9, 14, 3, 12, 13, 0]]

/-- The BLAKE2b mixing function G (RFC 7693 §3.1), acting on the 16-word
work vector `v` at indices `a b c d` with message words `x y`. -/
def gMix (v : List Nat) (a b c d : Nat) (x y : Nat) : List Nat :=
  let va := add64 (add64 (v.getD a 0) (v.getD b 0)) x
  let vd := rotr64 ((v.getD d 0) ^^^ va) 32
  let vc := add64 (v.getD c 0) vd
  let vb := rotr64 ((v.getD b 0) ^^^ vc) 24
  let va2 := add64 (add64 va vb) y
  let vd2 := rotr64 (vd ^^^ va2) 16
  let vc2 := add64 vc vd2
  let vb2 := rotr64 (vb ^^^ vc2) 63
  (((v.set a va2).set b vb2).set c vc2).set d vd2

/-- One BLAKE2b round over the work vector `v` with message words `m`. -/
def blakeRound (m : List Nat) (v : List Nat) (r : Nat) : List Nat :=
  let s := blakeSigma.getD (r % 10) []
  let mg := fun i => m.getD (s.getD i 0) 0
  let v1 := gMix v 0 4 8 12 (mg 0) (mg 1)
  let v2 := gMix v1 1 5 9 13 (mg 2) (mg 3)
  let v3 := gMix v2 2 6 10 14 (mg 4) (mg 5)
  let v4 := gMix v3 3 7 11 15 (mg 6) (mg 7)
  let v5 := gMix v4 0 5 10 15 (mg 8) (mg 9)
  let v6 := gMix v5 1 6 11 12 (mg 10) (mg 11)
  let v7 := gMix v6 2 7 8 13 (mg 12) (mg 13)
  gMix v7 3 4 9 14 (mg 14) (mg 15)

/-- Little-endian 64-bit word from (up to) 8 bytes. -/
def wordFromBytesLE (bs : List Nat) : Nat :=
  bs.foldr (fun b acc => b + acc * 256) 0

/-- The 16 little-endian message words of a 128-byte block. -/
def bytesToWords (block : List Nat) : List Nat :=
  (List.range 16).map (fun i => wordFromBytesLE ((block.drop (8 * i)).take 8))

/-- Little-endian serialization of a 64-bit word into 8 bytes. -/
def wordToBytesLE (w : Nat) : List Nat :=
  (List.range 8).map (fun i => (w >>> (8 * i)) % 256)

/-- The BLAKE2b compression function F (RFC 7693 §3.2). -/
def blakeCompress (h : List Nat) (block : List Nat) (t : Nat) (last : Bool) : List Nat :=
  let m := bytesToWords block
  let v0 := h ++ blakeIV
  let v1 := v0.set 12 ((v0.getD 12 0) ^^^ (t % MASK64))
  let v2 := v1.set 13 ((v1.getD 13 0) ^^^ ((t / MASK64) % MASK64))
  let v3 := if last then v2.set 14 ((v2.getD 14 0) ^^^ (MASK64 - 1)) else v2
  let v4 := (List.range 12).foldl (blakeRound m) v3
  (List.range 8).map (fun i => (h.getD i 0) ^^^ (v4.getD i 0) ^^^ (v4.getD (i + 8) 0))

/-- Unkeyed BLAKE2b with output length `digest_size` bytes
(`hashlib.blake2b(digest_size=...)` over the full message). -/
def blake2bHash (digest_size : Nat) (data : List Nat) : List Nat :=
  let h0a := (List.range 8).map (fun i => blakeIV.getD i 0)
  let h0 := h0a.set 0 ((h0a.getD 0 0) ^^^ 0x01010000 ^^^ digest_size)
  let len := data.length
  let nblocks := if len = 0 then 1 else (len + 127) / 128
  let hfin := (List.range nblocks).foldl
    (fun h i =>
      let blockBytes := (data.drop (128 * i)).take 128
      let isLast := i = nblocks - 1
      let block := blockBytes ++ List.replicate (128 - blockBytes.length) 0
      let t := if isLast then len else 128 * (i + 1)
      blakeCompress h block t isLast)
    h0
  ((hfin.map wordToBytesLE).flatten).take digest_size

/-- The sixteen lowercase hexadecimal digit characters. -/
def hexDigitChars : List Char :=
  "0123456789abcdef".data

/-- The two lowercase hex characters of one byte (`bytes.hex()` per byte). -/
def byteToHexChars (b : Nat) : List Char :=
  [hexDigitChars.getD (b / 16) '0', hexDigitChars.getD (b % 16) '0']

/-- Python `hash.hexdigest()`: lowercase hex string of a byte string. -/
def hexdigest (bs : List Nat) : String :=
  String.mk (bs.flatMap byteToHexChars)

/-! ### NameDeriver (`calculate_model_name`, `calculate_module_name`) -/

/-- Model of `models.calculate_model_name`.  The source reads the Stan (translator)
version, the httpstan version and `sys.platform` from the ambient process;
they are explicit parameters here.  The hash input is the concatenation of
the UTF-8 encodings in the source's `hash.update` order: program code, Stan
version, httpstan version, platform. -/
def calculate_model_name (program_code stanVersion httpstanVersion sysPlatform : String) :
    String :=
  let digest_size := 5
  let digest := blake2bHash digest_size
    (utf8Bytes program_code ++ utf8Bytes stanVersion ++
      utf8Bytes httpstanVersion ++ utf8Bytes sysPlatform)
  "models/" ++ hexdigest digest

/-- Python `str.split(sep)` for a one-character separator, on the character
list of the string.  Always returns a nonempty list of separator-free parts. -/
def splitOnChar (sep : Char) : List Char → List (List Char)
  | [] => [[]]
  | c :: rest =>
    let r := splitOnChar sep rest
    if c = sep then [] :: r
    else
      match r with
      | [] => [[c]]
      | g :: gs => (c :: g) :: gs

/-- Model of `models.calculate_module_name`: `model_name.split("/")[-1]` prefixed with
`model_`.  Python's `[-1]` on the (always nonempty) split result is
`getLastD _ []`. -/
def calculate_module_name (model_name : String) : String :=
  let model_id := (splitOnChar '/' model_name.data).getLastD []
  "model_" ++ String.mk model_id

/-- ASCII fragment of Python's identifier-token grammar (`str.isidentifier`
restricted to ASCII, which covers every name produced here): a leading ASCII
letter or underscore followed by ASCII letters, digits or underscores. -/
def isAsciiLetter (c : Char) : Bool :=
  (97 ≤ c.toNat && c.toNat ≤ 122) || (65 ≤ c.toNat && c.toNat ≤ 90)

def isAsciiDigit (c : Char) : Bool :=
  48 ≤ c.toNat && c.toNat ≤ 57

def isPythonIdentifier (s : String) : Bool :=
  match s.data with
  | [] => false
  | c :: cs =>
    (isAsciiLetter c || c == '_') &&
      cs.all (fun d => isAsciiLetter d || isAsciiDigit d || d == '_')

/-! ### `os.path.splitext` (POSIX flavour, as used by the loader's assert) -/

/-- Index of the last occurrence of `c`, or `none` (Python `str.rfind`,
with `none` standing for `-1`). -/
def rfindIdx (c : Char) : List Char → Option Nat
  | [] => none
  | x :: xs =>
    match rfindIdx c xs with
    | some i => some (i + 1)
    | none => if x = c then some 0 else none

/-- Python `os.path.splitext` on a path (CPython `genericpath._splitext` with
separator `/` and extension separator `.`): split at the last dot, unless
every character between the last path separator and that dot is itself a
dot (leading dots of the basename never start an extension). -/
def splitext (p : List Char) : List Char × List Char :=
  match rfindIdx '.' p with
  | none => (p, [])
  | some di =>
    match rfindIdx '/' p with
    | none =>
      if (List.range di).any (fun k => !(p.getD k '.' == '.')) then
        (p.take di, p.drop di)
      else (p, [])
    | some si =>
      if si < di then
        if (List.range (di - (si + 1))).any (fun k => !(p.getD (si + 1 + k) '.' == '.')) then
          (p.take di, p.drop di)
        else (p, [])
      else (p, [])

/-! ### Process state, events, and the scratch-directory context manager -/

/-- Observable events of the pipeline: scratch-directory creation and
removal, file writes, dynamic-import attempts (recording the directory
contents the import resolves against), and runs of the native build
toolchain. -/
inductive Event where
  | mkdtemp (name : String)
  | fileWrite (dir file : String)
  | importCall (moduleName : String) (dirContents : List String)
  | rmtree (name : String)
  | toolchainRun
  deriving Repr, DecidableEq

abbrev Trace := List Event

/-- Process-wide mutable state the loader touches: scratch directories on
disk (directory name ↦ contained filenames) and `sys.path`. -/
structure PState where
  fs : List (String × List String)
  sysPath : List String
  deriving Repr, DecidableEq

/-- Contents of directory `d`, or `[]` if absent. -/
def dirContentsD (fs : List (String × List String)) (d : String) : List String :=
  match fs with
  | [] => []
  | (e, files) :: rest => if e = d then files else dirContentsD rest d

/-- Python `open(os.path.join(dir, file), "wb")`: create `file` inside `dir`. -/
def fsWrite (fs : List (String × List String)) (dir file : String) :
    List (String × List String) :=
  match fs with
  | [] => [(dir, [file])]
  | (e, files) :: rest =>
    if e = dir then (e, files ++ [file]) :: rest else (e, files) :: fsWrite rest dir file

/-- Python `shutil.rmtree(name, ignore_errors=True)`. -/
def removeDir (fs : List (String × List String)) (name : String) :
    List (String × List String) :=
  fs.filter (fun p => !(p.1 == name))

/-- Model of `models.TemporaryDirectory`, a `contextlib.contextmanager` generator:
`mkdtemp` (a fresh directory `name`), `yield name`, then
`shutil.rmtree(name, ignore_errors=True)`.  The generator has **no**
`try/finally` around the `yield`: when the `with`-body raises, the
exception is thrown into the generator at the `yield` point and propagates,
so the `rmtree` line is never reached — cleanup runs only on the normal
exit path. -/
def runTemporaryDirectory {ε α : Type} (name : String)
    (body : String → PState → PState × Trace × Except ε α) (s : PState) :
    PState × Trace × Except ε α :=
  let s1 : PState := { s with fs := (name, []) :: s.fs }
  let r := body name s1
  match r.2.2 with
  | Except.ok a =>
    ({ r.1 with fs := removeDir r.1.fs name },
      Event.mkdtemp name :: r.2.1 ++ [Event.rmtree name], Except.ok a)
  | Except.error e => (r.1, Event.mkdtemp name :: r.2.1, Except.error e)

/-! ### ModuleLoader (`_import_module`, `import_model_extension_module`) -/

/-- External behaviour of `importlib.import_module`, given the module name
and the contents of the module directory appended to `sys.path`: it returns
the loaded module (named by its `__name__`) or raises.  Importing a binary
extension module reads the search path but does not modify `sys.path`. -/
abbrev ImportBeh := String → List String → Except String String

/-- Model of `models._import_module`: append `module_path` to `sys.path`, import,
pop the appended entry.  On an import error the exception propagates before
the `pop` runs. -/
def _import_module (importBeh : ImportBeh) (module_name module_path : String)
    (s : PState) : PState × Trace × Except String String :=
  let s1 : PState := { s with sysPath := s.sysPath ++ [module_path] }
  let contents := dirContentsD s1.fs module_path
  match importBeh module_name contents with
  | Except.ok m =>
    ({ s1 with sysPath := s1.sysPath.dropLast },
      [Event.importCall module_name contents], Except.ok m)
  | Except.error e => (s1, [Event.importCall module_name contents], Except.error e)

/-- Loader errors: the `KeyError` of a cache miss, the `assert` on the
filename stem, and exceptions raised by the dynamic import. -/
inductive LoadErr where
  | keyError
  | assertionError
  | importError (msg : String)
  deriving Repr, DecidableEq

/-- Modelled from the spec: `httpstan.cache.load_model_extension_module`
(the ArtifactStore, whose source is not under `src/`) is a lookup in a
persistent key→artifact table keyed by the model name; it "never compiles"
and reports a miss — surfaced as `KeyError` — "without side effects on
absence".  The table maps a model name to the stored
`(module bytes, compiler output)` pair. -/
def load_model_extension_module (db : List (String × (List Nat × String)))
    (model_name : String) : Option (List Nat × String) :=
  match db with
  | [] => none
  | (k, v) :: rest => if k = model_name then some v else load_model_extension_module rest model_name

/-- Model of `models.import_model_extension_module`: look the artifact up in the
cache (`KeyError` on a miss), then inside `TemporaryDirectory` write the
single file `<module_name>.so` (`.pyd` when `platform.system()` is
`"Windows"`), assert that the filename's stem equals the module name, and
dynamically import it via `_import_module`.  `tmpName` is the fresh
directory name produced by `mkdtemp`. -/
def import_model_extension_module (db : List (String × (List Nat × String)))
    (importBeh : ImportBeh) (platformSystem : String) (tmpName : String)
    (model_name : String) (s : PState) :
    PState × Trace × Except LoadErr (String × String) :=
  match load_model_extension_module db model_name with
  | none => (s, ([] : Trace), Except.error LoadErr.keyError)
  | some (_module_bytes, compiler_output) =>
    let module_name := calculate_module_name model_name
    let module_filename :=
      module_name ++ (if platformSystem ≠ "Windows" then ".so" else ".pyd")
    runTemporaryDirectory tmpName
      (fun temporary_directory s1 =>
        let s2 : PState :=
          { s1 with fs := fsWrite s1.fs temporary_directory module_filename }
        if (splitext module_filename.data).1 = module_name.data then
          let r := _import_module importBeh module_name temporary_directory s2
          match r.2.2 with
          | Except.ok m =>
            (r.1, Event.fileWrite temporary_directory module_filename :: r.2.1,
              Except.ok (m, compiler_output))
          | Except.error e =>
            (r.1, Event.fileWrite temporary_directory module_filename :: r.2.1,
              Except.error (LoadErr.importError e))
        else (s2, [Event.fileWrite temporary_directory module_filename],
          Except.error LoadErr.assertionError))
      s

/-! ### OperationRegistry shutdown hook (`app._warn_unfinished_operations`) -/

/-- The critical log line logged by the shutdown hook, with the
operation name in backticks as in the source f-string. -/
def warnMessage (name : String) : String :=
  "Operation `" ++ name ++ "` cancelled before finishing."

/-- Model of `app._warn_unfinished_operations`: iterate `app["operations"].items()`
(an association list with the dict's distinct keys) and log one critical
diagnostic for every operation whose `"done"` field is false.  Returns the
emitted critical log messages in order. -/
def _warn_unfinished_operations (operations : List (String × Bool)) : List String :=
  (operations.filter (fun p => !p.2)).map (fun p => warnMessage p.1)

/-- Model of `app.make_app`: a fresh application with an empty operations table and
`_warn_unfinished_operations` registered as the cleanup hook. -/
structure App where
  operations : List (String × Bool)
  onCleanup : List (List (String × Bool) → List String)

def make_app : App :=
  { operations := [], onCleanup := [_warn_unfinished_operations] }

/-! ### BuildOrchestrator (`_build_extension_module`,
`compile_model_extension_module`) -/

/-- The `lru_cache` key of `_build_extension_module`:
`(module_name, cpp_code, pyx_code_template)` (the `extra_compile_args`
argument is always left at its `None` default by the caller). -/
abbrev BuildKey := String × String × String

/-- External environment of a build: whether `sys.stderr` has a working
`fileno()` (`_has_fileno(sys.stderr)`), the native build toolchain
(Cython/setuptools compiling the build unit — deterministic in its inputs,
returning the built module's bytes or failing), and the diagnostics the
toolchain writes to the captured stderr stream. -/
structure BuildEnv where
  stderrHasFileno : Bool
  toolchain : BuildKey → Except String (List Nat)
  captured : BuildKey → String

/-- Body of `models._build_extension_module` (undecorated): write the build
unit into a scratch directory, run the toolchain exactly once with stdout
and stderr redirected to a capture stream — but only when
`_has_fileno(sys.stderr)` holds; otherwise `compiler_output` keeps its
initial value `""` — and return the module bytes with the captured
compiler output.  A toolchain failure propagates as an exception. -/
def _build_extension_module (env : BuildEnv) (key : BuildKey) :
    Trace × Except String (List Nat × String) :=
  let redirect_stderr := env.stderrHasFileno
  ([Event.toolchainRun],
    match env.toolchain key with
    | Except.ok module_bytes =>
      Except.ok (module_bytes, if redirect_stderr then env.captured key else "")
    | Except.error e => Except.error e)

/-- Lookup in the memoization table of `functools.lru_cache`. -/
def lruLookup (st : List (BuildKey × (List Nat × String))) (key : BuildKey) :
    Option (List Nat × String) :=
  match st with
  | [] => none
  | (k, v) :: rest => if k = key then some v else lruLookup rest key

/-- The `@functools.lru_cache()` wrapper around `_build_extension_module`:
a hit returns the memoized pair without running the body; a miss runs the
body and memoizes the result — but only a *returned* result: Python's
`lru_cache` does not cache raised exceptions. -/
def lru_cache_call (env : BuildEnv) (key : BuildKey)
    (st : List (BuildKey × (List Nat × String))) :
    List (BuildKey × (List Nat × String)) × (Trace × Except String (List Nat × String)) :=
  match lruLookup st key with
  | some r => (st, (([] : Trace), Except.ok r))
  | none =>
    let b := _build_extension_module env key
    match b.2 with
    | Except.ok r => ((key, r) :: st, (b.1, Except.ok r))
    | Except.error e => (st, (b.1, Except.error e))

/-- Environment of `compile_model_extension_module`: the build environment
plus the external translator `httpstan.compile.compile` (modelled from the
spec as a deterministic black box from program code and target name to
generated C++), the packaged `.pyx` template, and the ambient version and
platform strings. -/
structure CompileEnv where
  build : BuildEnv
  stanc : String → String → String
  pyxTemplate : String
  stanVersion : String
  httpstanVersion : String
  sysPlatform : String

/-- The `lru_cache` key computed by one `compile_model_extension_module`
call for `program_code`. -/
def compileKey (env : CompileEnv) (program_code : String) : BuildKey :=
  let model_name :=
    calculate_model_name program_code env.stanVersion env.httpstanVersion env.sysPlatform
  let stan_model_name := calculate_module_name model_name
  (stan_model_name, env.stanc program_code stan_model_name, env.pyxTemplate)

/-- Model of `models.compile_model_extension_module`: derive the model and module
names, run the translator, and call the memoized `_build_extension_module`.
The call of `_build_extension_module` contains no `await`, so on the
single-threaded event loop it runs atomically; `st` is the process-wide
memoization table. -/
def compile_model_extension_module (env : CompileEnv) (program_code : String)
    (st : List (BuildKey × (List Nat × String))) :
    List (BuildKey × (List Nat × String)) × (Trace × Except String (List Nat × String)) :=
  lru_cache_call env.build (compileKey env program_code) st

/-- Runs `n` concurrent `compile_model_extension_module` coroutines for the same
program code on one event loop: the synchronous (non-`await`) section that
performs the memoized build is atomic, so any interleaving is a sequence of
complete `compile_model_extension_module` executions against the shared
memoization table.  Returns the final table and each caller's
(trace, outcome). -/
def runConcurrentCompiles (env : CompileEnv) (program_code : String) :
    Nat → List (BuildKey × (List Nat × String)) →
    List (BuildKey × (List Nat × String)) × List (Trace × Except String (List Nat × String))
  | 0, st => (st, [])
  | n + 1, st =>
    let c := compile_model_extension_module env program_code st
    let rest := runConcurrentCompiles env program_code n c.1
    (rest.1, c.2 :: rest.2)

/-- Number of native-toolchain executions recorded in one trace. -/
def toolchainRuns (tr : Trace) : Nat :=
  tr.countP (fun e => match e with | Event.toolchainRun => true | _ => false)

/-- Total toolchain executions over all callers' traces. -/
def totalToolchainRuns (results : List (Trace × Except String (List Nat × String))) : Nat :=
  (results.map (fun r => toolchainRuns r.1)).sum

/-- A sample compile environment used by concrete witnesses. -/
def exampleCompileEnv : CompileEnv :=
  ⟨⟨true, fun _ => Except.ok [0, 1], fun _ => "warnings"⟩,
    fun _ _ => "cpp", "tpl", "2.29.0", "4.6.1", "linux"⟩

/-! ## Lemmas about `str.split`, `rfind` and `os.path.splitext` -/

theorem splitOnChar_ne_nil (sep : Char) (l : List Char) : splitOnChar sep l ≠ [] := by
  induction l with
  | nil => simp [splitOnChar]
  | cons c rest ih =>
    simp only [splitOnChar]
    by_cases hc : c = sep
    · simp [hc]
    · simp only [hc, if_false]
      cases h : splitOnChar sep rest with
      | nil => simp
      | cons g gs => simp

theorem splitOnChar_cons_sep (sep : Char) (rest : List Char) :
    splitOnChar sep (sep :: rest) = [] :: splitOnChar sep rest := by
  simp [splitOnChar]

theorem splitOnChar_cons_ne (sep c : Char) (rest : List Char) (hc : c ≠ sep)
    (g : List Char) (gs : List (List Char)) (h : splitOnChar sep rest = g :: gs) :
    splitOnChar sep (c :: rest) = (c :: g) :: gs := by
  simp [splitOnChar, hc, h]

theorem splitOnChar_length_ge_two (sep : Char) (xs ys : List Char) :
    2 ≤ (splitOnChar sep (xs ++ sep :: ys)).length := by
  induction xs with
  | nil =>
    rw [List.nil_append, splitOnChar_cons_sep]
    have := List.length_pos.mpr (splitOnChar_ne_nil sep ys)
    simp only [List.length_cons]
    omega
  | cons c xs ih =>
    rw [List.cons_append]
    by_cases hc : c = sep
    · rw [hc, splitOnChar_cons_sep]
      have := List.length_pos.mpr (splitOnChar_ne_nil sep (xs ++ sep :: ys))
      simp only [List.length_cons]
      omega
    · cases h : splitOnChar sep (xs ++ sep :: ys) with
      | nil => exact absurd h (splitOnChar_ne_nil sep _)
      | cons g gs =>
        rw [splitOnChar_cons_ne sep c _ hc g gs h]
        have h2 := ih
        rw [h] at h2
        simpa using h2

theorem getLastD_irrel {α : Type} (l : List α) (a b : α) (h : l ≠ []) :
    l.getLastD a = l.getLastD b := by
  cases l with
  | nil => exact absurd rfl h
  | cons x xs => rw [List.getLastD_cons, List.getLastD_cons]

theorem getLastD_mem {α : Type} (l : List α) (d : α) (h : l ≠ []) : l.getLastD d ∈ l := by
  induction l generalizing d with
  | nil => exact absurd rfl h
  | cons x xs ih =>
    rw [List.getLastD_cons]
    cases hxs : xs with
    | nil => subst hxs; simp
    | cons y ys =>
      subst hxs
      exact List.mem_cons_of_mem _ (ih x (by simp))

theorem getLastD_splitOnChar_append (sep : Char) (xs ys : List Char) :
    (splitOnChar sep (xs ++ sep :: ys)).getLastD [] = (splitOnChar sep ys).getLastD [] := by
  induction xs with
  | nil =>
    rw [List.nil_append, splitOnChar_cons_sep, List.getLastD_cons]
  | cons c xs ih =>
    rw [List.cons_append]
    by_cases hc : c = sep
    · rw [hc, splitOnChar_cons_sep, List.getLastD_cons, ← ih]
    · cases h : splitOnChar sep (xs ++ sep :: ys) with
      | nil => exact absurd h (splitOnChar_ne_nil sep _)
      | cons g gs =>
        have hgs : gs ≠ [] := by
          have h2 := splitOnChar_length_ge_two sep xs ys
          rw [h] at h2
          simp only [List.length_cons] at h2
          intro he
          subst he
          simp at h2
        rw [splitOnChar_cons_ne sep c _ hc g gs h, List.getLastD_cons, ← ih, h,
          List.getLastD_cons]
        exact getLastD_irrel _ _ _ hgs

theorem splitOnChar_of_not_mem (sep : Char) (l : List Char) (h : sep ∉ l) :
    splitOnChar sep l = [l] := by
  induction l with
  | nil => rfl
  | cons c rest ih =>
    have hc : c ≠ sep := fun e => h (by simp [e])
    have hr : sep ∉ rest := fun m => h (List.mem_cons_of_mem _ m)
    simp [splitOnChar, hc, ih hr]

theorem splitOnChar_parts_not_mem (sep : Char) (l : List Char) :
    ∀ part ∈ splitOnChar sep l, sep ∉ part := by
  induction l with
  | nil =>
    intro part hp
    simp only [splitOnChar, List.mem_singleton] at hp
    subst hp
    simp
  | cons c rest ih =>
    intro part hp
    by_cases hc : c = sep
    · subst hc
      rw [splitOnChar_cons_sep] at hp
      rcases List.mem_cons.mp hp with h | h
      · subst h; simp
      · exact ih part h
    · cases hsp : splitOnChar sep rest with
      | nil => exact absurd hsp (splitOnChar_ne_nil sep rest)
      | cons g gs =>
        rw [splitOnChar_cons_ne sep c rest hc g gs hsp] at hp
        rcases List.mem_cons.mp hp with h | h
        · subst h
          intro hm
          rcases List.mem_cons.mp hm with h1 | h1
          · exact hc h1.symm
          · exact ih g (by rw [hsp]; exact List.mem_cons_self g gs) h1
        · exact ih part (by rw [hsp]; exact List.mem_cons_of_mem _ h)

theorem rfindIdx_eq_none (c : Char) (l : List Char) (h : c ∉ l) : rfindIdx c l = none := by
  induction l with
  | nil => rfl
  | cons x xs ih =>
    have hx : ¬ x = c := fun e => h (by simp [e])
    have hxs : c ∉ xs := fun m => h (List.mem_cons_of_mem _ m)
    simp [rfindIdx, ih hxs, hx]

theorem rfindIdx_append_of_some (c : Char) (xs ys : List Char) (i : Nat)
    (h : rfindIdx c ys = some i) : rfindIdx c (xs ++ ys) = some (xs.length + i) := by
  induction xs with
  | nil => simpa using h
  | cons x xs ih =>
    have h1 : rfindIdx c (x :: (xs ++ ys)) = some (xs.length + i + 1) := by
      unfold rfindIdx
      rw [ih]
    rw [List.cons_append, h1]
    simp only [List.length_cons]
    congr 1
    omega

theorem splitext_append_ext (c : Char) (t rest : List Char)
    (hc : c ≠ '.') (hnr : '.' ∉ rest) (hs : '/' ∉ (c :: t) ++ '.' :: rest) :
    splitext ((c :: t) ++ '.' :: rest) = (c :: t, '.' :: rest) := by
  have hdot : rfindIdx '.' ((c :: t) ++ '.' :: rest) = some ((c :: t).length + 0) := by
    apply rfindIdx_append_of_some
    simp [rfindIdx, rfindIdx_eq_none '.' rest hnr]
  have hsl : rfindIdx '/' ((c :: t) ++ '.' :: rest) = none := rfindIdx_eq_none _ _ hs
  have hany : (List.range ((c :: t).length + 0)).any
      (fun k => !(((c :: t) ++ '.' :: rest).getD k '.' == '.')) = true := by
    apply List.any_eq_true.mpr
    refine ⟨0, List.mem_range.mpr (by simp), ?_⟩
    simp [hc]
  simp only [splitext, hdot, hsl, hany, if_pos]
  rw [Nat.add_zero, List.take_left, List.drop_left]

/-! ## Lemmas about the derived names -/

theorem calculate_module_name_data (model_name : String) :
    (calculate_module_name model_name).data =
      'm' :: 'o' :: 'd' :: 'e' :: 'l' :: '_' ::
        (splitOnChar '/' model_name.data).getLastD [] := by
  show ("model_" ++ String.mk ((splitOnChar '/' model_name.data).getLastD [])).data = _
  rw [String.data_append]
  rfl

theorem last_split_part_no_slash (model_name : String) :
    '/' ∉ (splitOnChar '/' model_name.data).getLastD [] := by
  cases h : splitOnChar '/' model_name.data with
  | nil => exact absurd h (splitOnChar_ne_nil _ _)
  | cons g gs =>
    have hmem : (g :: gs).getLastD [] ∈ splitOnChar '/' model_name.data := by
      rw [h]
      exact getLastD_mem _ _ (by simp)
    exact splitOnChar_parts_not_mem '/' model_name.data _ hmem

theorem module_name_no_slash (model_name : String) :
    '/' ∉ (calculate_module_name model_name).data := by
  rw [calculate_module_name_data]
  intro hm
  have hpart := last_split_part_no_slash model_name
  simp only [List.mem_cons] at hm
  rcases hm with h | h | h | h | h | h | h
  all_goals first
    | exact absurd h (by decide)
    | exact hpart h

theorem splitext_module_filename (model_name platformSystem : String) :
    (splitext ((calculate_module_name model_name ++
        (if platformSystem ≠ "Windows" then ".so" else ".pyd")).data)).1 =
      (calculate_module_name model_name).data := by
  have hpart := last_split_part_no_slash model_name
  by_cases hw : platformSystem ≠ "Windows"
  · rw [if_pos hw, String.data_append, calculate_module_name_data]
    have := splitext_append_ext 'm'
      ('o' :: 'd' :: 'e' :: 'l' :: '_' :: (splitOnChar '/' model_name.data).getLastD [])
      ['s', 'o'] (by decide) (by decide)
      (by
        intro hm
        simp only [List.cons_append, List.mem_cons] at hm
        rcases hm with h | h | h | h | h | h | hrest
        all_goals first | exact absurd h (by decide) | skip
        rcases List.mem_append.mp hrest with h | h
        · exact hpart h
        · exact absurd h (by decide))
    simpa using congrArg Prod.fst this
  · rw [if_neg hw, String.data_append, calculate_module_name_data]
    have := splitext_append_ext 'm'
      ('o' :: 'd' :: 'e' :: 'l' :: '_' :: (splitOnChar '/' model_name.data).getLastD [])
      ['p', 'y', 'd'] (by decide) (by decide)
      (by
        intro hm
        simp only [List.cons_append, List.mem_cons] at hm
        rcases hm with h | h | h | h | h | h | hrest
        all_goals first | exact absurd h (by decide) | skip
        rcases List.mem_append.mp hrest with h | h
        · exact hpart h
        · exact absurd h (by decide))
    simpa using congrArg Prod.fst this

theorem calculate_module_name_models (x : String) (hx : '/' ∉ x.data) :
    calculate_module_name ("models/" ++ x) = "model_" ++ x := by
  unfold calculate_module_name
  have hdata : ("models/" ++ x).data =
      ('m' :: 'o' :: 'd' :: 'e' :: 'l' :: 's' :: []) ++ '/' :: x.data := by
    rw [String.data_append]
    rfl
  rw [hdata, getLastD_splitOnChar_append, splitOnChar_of_not_mem _ _ hx]
  rfl

/-! ## Lemmas about the digest string -/

theorem hexDigit_getD_mem (i : Nat) : hexDigitChars.getD i '0' ∈ hexDigitChars := by
  rcases lt_or_ge i hexDigitChars.length with h | h
  · rw [List.getD_eq_getElem _ _ h]
    exact List.getElem_mem h
  · rw [List.getD_eq_default _ _ h]
    decide

theorem byteToHexChars_mem (b : Nat) : ∀ ch ∈ byteToHexChars b, ch ∈ hexDigitChars := by
  intro ch hch
  simp only [byteToHexChars, List.mem_cons, List.mem_singleton] at hch
  rcases hch with h | h | h
  · subst h; exact hexDigit_getD_mem _
  · subst h; exact hexDigit_getD_mem _
  · exact absurd h (by simp)

theorem length_flatMap_hex (bytes : List Nat) :
    (bytes.flatMap byteToHexChars).length = 2 * bytes.length := by
  rw [List.length_flatMap]
  have hc : bytes.map (List.length ∘ byteToHexChars) = List.replicate bytes.length 2 := by
    induction bytes with
    | nil => rfl
    | cons b rest ih =>
      rw [List.map_cons, List.length_cons, List.replicate_succ, ih]
      rfl
  rw [hc, List.sum_replicate, smul_eq_mul]
  omega

theorem wordToBytesLE_length (w : Nat) : (wordToBytesLE w).length = 8 := by
  simp [wordToBytesLE]

theorem blakeCompress_length (h block : List Nat) (t : Nat) (last : Bool) :
    (blakeCompress h block t last).length = 8 := by
  simp [blakeCompress]

theorem foldl_length_eight (g : List Nat → Nat → List Nat)
    (hg : ∀ h i, (g h i).length = 8) :
    ∀ (l : List Nat) (h : List Nat), h.length = 8 → (l.foldl g h).length = 8 := by
  intro l
  induction l with
  | nil => intro h hh; simpa using hh
  | cons x xs ih =>
    intro h hh
    simpa using ih (g h x) (hg h x)

theorem blake2bHash_length (ds : Nat) (hds : ds ≤ 64) (data : List Nat) :
    (blake2bHash ds data).length = ds := by
  simp only [blake2bHash]
  rw [List.length_take]
  have hfin : ((List.range (if data.length = 0 then 1 else (data.length + 127) / 128)).foldl
      (fun h i =>
        blakeCompress h
          (((data.drop (128 * i)).take 128) ++
            List.replicate (128 - ((data.drop (128 * i)).take 128).length) 0)
          (if i = (if data.length = 0 then 1 else (data.length + 127) / 128) - 1 then
            data.length
          else 128 * (i + 1))
          (i = (if data.length = 0 then 1 else (data.length + 127) / 128) - 1))
      ((((List.range 8).map (fun i => blakeIV.getD i 0)).set 0
        (((List.range 8).map (fun i => blakeIV.getD i 0)).getD 0 0 ^^^ 0x01010000 ^^^ ds)))).length
      = 8 := by
    apply foldl_length_eight
    · intro h i
      exact blakeCompress_length _ _ _ _
    · simp
  rw [List.length_flatten]
  have hmap : (((List.range (if data.length = 0 then 1 else (data.length + 127) / 128)).foldl
      (fun h i =>
        blakeCompress h
          (((data.drop (128 * i)).take 128) ++
            List.replicate (128 - ((data.drop (128 * i)).take 128).length) 0)
          (if i = (if data.length = 0 then 1 else (data.length + 127) / 128) - 1 then
            data.length
          else 128 * (i + 1))
          (i = (if data.length = 0 then 1 else (data.length + 127) / 128) - 1))
      ((((List.range 8).map (fun i => blakeIV.getD i 0)).set 0
        (((List.range 8).map (fun i => blakeIV.getD i 0)).getD 0 0 ^^^ 0x01010000 ^^^ ds)))).map
        wordToBytesLE).map List.length =
      List.replicate 8 8 := by
    rw [List.map_map]
    have : (List.length ∘ wordToBytesLE) = fun _ : Nat => 8 := by
      funext w
      exact wordToBytesLE_length w
    rw [this, List.map_const', hfin]
  rw [hmap]
  simp only [List.sum_replicate, smul_eq_mul]
  omega

/-- Shared shape fact: every produced model name is `models/` followed by the
ten-character lowercase-hex digest. -/
theorem calculate_model_name_shape_aux (pc sv hv pl : String) :
    ∃ d : String, calculate_model_name pc sv hv pl = "models/" ++ d ∧
      d.length = 10 ∧ ∀ ch ∈ d.data, ch ∈ hexDigitChars := by
  refine ⟨hexdigest (blake2bHash 5
    (utf8Bytes pc ++ utf8Bytes sv ++ utf8Bytes hv ++ utf8Bytes pl)), rfl, ?_, ?_⟩
  · show (String.mk _).length = 10
    simp only [String.length]
    rw [length_flatMap_hex, blake2bHash_length 5 (by omega)]
  · intro ch hch
    have : ch ∈ (blake2bHash 5
        (utf8Bytes pc ++ utf8Bytes sv ++ utf8Bytes hv ++ utf8Bytes pl)).flatMap
          byteToHexChars := hch
    rcases List.mem_flatMap.mp this with ⟨b, _, hb⟩
    exact byteToHexChars_mem b ch hb

theorem hexChar_no_slash : '/' ∉ hexDigitChars := by decide

theorem hexChar_ident : ∀ ch ∈ hexDigitChars,
    (isAsciiLetter ch || isAsciiDigit ch || (ch == '_')) = true := by decide

/-! ## Claim theorems: NameDeriver -/

/-- C3: `calculate_model_name` is a pure function of the four-tuple
(program code, translator version, httpstan version, platform), combined in
a fixed order; two calls with identical four-tuple inputs return identical
model names. -/
theorem spec_c3_model_name_deterministic (pc1 sv1 hv1 pl1 pc2 sv2 hv2 pl2 : String)
    (h1 : pc1 = pc2) (h2 : sv1 = sv2) (h3 : hv1 = hv2) (h4 : pl1 = pl2) :
    calculate_model_name pc1 sv1 hv1 pl1 = calculate_model_name pc2 sv2 hv2 pl2 := by
  subst h1 h2 h3 h4
  rfl

theorem spec_c3_model_name_deterministic_witness :
    calculate_model_name "data(x)" "2.29.0" "4.6.1" "linux" =
      calculate_model_name "data(x)" "2.29.0" "4.6.1" "linux" :=
  spec_c3_model_name_deterministic _ _ _ _ _ _ _ _ rfl rfl rfl rfl

/-- C9: every produced model name has the exact shape `models/` followed by
exactly ten lowercase hexadecimal characters (the hexdigest of a BLAKE2b
digest of `digest_size` 5). -/
theorem spec_c9_model_name_shape (pc sv hv pl : String) :
    ∃ d : String, calculate_model_name pc sv hv pl = "models/" ++ d ∧
      d.length = 10 ∧ ∀ ch ∈ d.data, ch ∈ hexDigitChars :=
  calculate_model_name_shape_aux pc sv hv pl

theorem spec_c9_model_name_shape_witness :
    ∃ d : String, calculate_model_name "data(x)" "2.29.0" "4.6.1" "linux" = "models/" ++ d ∧
      d.length = 10 ∧ ∀ ch ∈ d.data, ch ∈ hexDigitChars :=
  spec_c9_model_name_shape "data(x)" "2.29.0" "4.6.1" "linux"

/-- C4: `calculate_module_name` is pure and total; on every model name
produced by `calculate_model_name` it returns a valid (ASCII) Python
identifier containing no path separator, and it is injective over produced
model names. -/
theorem spec_c4_module_name_valid_injective :
    (∀ pc sv hv pl,
        isPythonIdentifier (calculate_module_name (calculate_model_name pc sv hv pl)) = true ∧
        '/' ∉ (calculate_module_name (calculate_model_name pc sv hv pl)).data) ∧
    (∀ pc1 sv1 hv1 pl1 pc2 sv2 hv2 pl2,
        calculate_module_name (calculate_model_name pc1 sv1 hv1 pl1) =
          calculate_module_name (calculate_model_name pc2 sv2 hv2 pl2) →
        calculate_model_name pc1 sv1 hv1 pl1 = calculate_model_name pc2 sv2 hv2 pl2) := by
  constructor
  · intro pc sv hv pl
    obtain ⟨d, heq, _, hhex⟩ := calculate_model_name_shape_aux pc sv hv pl
    have hslash : '/' ∉ d.data := fun hm => hexChar_no_slash (hhex _ hm)
    rw [heq, calculate_module_name_models d hslash]
    constructor
    · show isPythonIdentifier _ = true
      have hdata : ("model_" ++ d).data =
          'm' :: 'o' :: 'd' :: 'e' :: 'l' :: '_' :: d.data := by
        rw [String.data_append]; rfl
      simp only [isPythonIdentifier, hdata]
      simp only [List.all_cons, Bool.and_eq_true]
      refine ⟨by decide, by decide, by decide, by decide, by decide, by decide, ?_⟩
      rw [List.all_eq_true]
      intro ch hch
      exact hexChar_ident ch (hhex ch hch)
    · rw [String.data_append]
      intro hm
      rcases List.mem_append.mp hm with h | h
      · exact absurd h (by decide)
      · exact hslash h
  · intro pc1 sv1 hv1 pl1 pc2 sv2 hv2 pl2 h
    obtain ⟨d1, heq1, _, hhex1⟩ := calculate_model_name_shape_aux pc1 sv1 hv1 pl1
    obtain ⟨d2, heq2, _, hhex2⟩ := calculate_model_name_shape_aux pc2 sv2 hv2 pl2
    have hs1 : '/' ∉ d1.data := fun hm => hexChar_no_slash (hhex1 _ hm)
    have hs2 : '/' ∉ d2.data := fun hm => hexChar_no_slash (hhex2 _ hm)
    rw [heq1, heq2, calculate_module_name_models d1 hs1,
      calculate_module_name_models d2 hs2] at h
    have hdata := congrArg String.data h
    rw [String.data_append, String.data_append] at hdata
    have hd : d1.data = d2.data := List.append_cancel_left hdata
    have : d1 = d2 := by
      cases d1; cases d2
      exact congrArg String.mk hd
    rw [heq1, heq2, this]

theorem spec_c4_module_name_valid_injective_witness :
    isPythonIdentifier (calculate_module_name
        (calculate_model_name "data(x)" "2.29.0" "4.6.1" "linux")) = true ∧
    calculate_model_name "data(x)" "2.29.0" "4.6.1" "linux" =
      calculate_model_name "data(x)" "2.29.0" "4.6.1" "linux" :=
  ⟨(spec_c4_module_name_valid_injective.1 "data(x)" "2.29.0" "4.6.1" "linux").1,
    spec_c4_module_name_valid_injective.2 "data(x)" "2.29.0" "4.6.1" "linux"
      "data(x)" "2.29.0" "4.6.1" "linux" rfl⟩

/-! ## Lemmas about the loader -/

/-- On a cache hit, one `import_model_extension_module` call creates the
scratch directory, writes the single module file, imports, and — only on
the normal path — removes the directory. -/
theorem import_model_hit (db : List (String × (List Nat × String))) (importBeh : ImportBeh)
    (plat tmp model_name : String) (s : PState) (bytes : List Nat) (out : String)
    (mn mfn : String)
    (hhit : load_model_extension_module db model_name = some (bytes, out))
    (hmn : mn = calculate_module_name model_name)
    (hmfn : mfn = mn ++ (if plat ≠ "Windows" then ".so" else ".pyd")) :
    import_model_extension_module db importBeh plat tmp model_name s =
      match importBeh mn [mfn] with
      | Except.ok m =>
        (⟨removeDir ((tmp, [mfn]) :: s.fs) tmp, s.sysPath⟩,
          [Event.mkdtemp tmp, Event.fileWrite tmp mfn, Event.importCall mn [mfn],
            Event.rmtree tmp],
          Except.ok (m, out))
      | Except.error e =>
        (⟨(tmp, [mfn]) :: s.fs, s.sysPath ++ [tmp]⟩,
          [Event.mkdtemp tmp, Event.fileWrite tmp mfn, Event.importCall mn [mfn]],
          Except.error (LoadErr.importError e)) := by
  obtain ⟨fs0, path0⟩ := s
  have hstem : (splitext mfn.data).1 = mn.data := by
    rw [hmfn, hmn]
    exact splitext_module_filename model_name plat
  simp only [import_model_extension_module, hhit]
  rw [← hmn, ← hmfn]
  cases himp : importBeh mn [mfn] with
  | ok m =>
    simp only [runTemporaryDirectory, _import_module, fsWrite, dirContentsD, hstem,
      eq_self_iff_true, if_true, List.nil_append, himp, List.cons_append,
      List.dropLast_concat]
  | error e =>
    simp only [runTemporaryDirectory, _import_module, fsWrite, dirContentsD, hstem,
      eq_self_iff_true, if_true, List.nil_append, himp, List.cons_append]

/-! ## Claim theorems: ModuleLoader -/

/-- C7: on every load that reaches the scratch directory (a cache hit), the
directory contains exactly one file when the dynamic import runs, named
module-identifier plus `.so` (non-Windows) / `.pyd` (Windows), and the
filename's stem (`os.path.splitext[0]`) equals the module identifier
exactly. -/
theorem spec_c7_scratch_layout (db : List (String × (List Nat × String)))
    (importBeh : ImportBeh) (plat tmp model_name : String) (s : PState)
    (bytes : List Nat) (out : String)
    (hhit : load_model_extension_module db model_name = some (bytes, out)) :
    (Event.importCall (calculate_module_name model_name)
        [calculate_module_name model_name ++ (if plat ≠ "Windows" then ".so" else ".pyd")] ∈
      (import_model_extension_module db importBeh plat tmp model_name s).2.1) ∧
    (∀ mn cs, Event.importCall mn cs ∈
        (import_model_extension_module db importBeh plat tmp model_name s).2.1 →
      cs = [calculate_module_name model_name ++
        (if plat ≠ "Windows" then ".so" else ".pyd")]) ∧
    (splitext ((calculate_module_name model_name ++
        (if plat ≠ "Windows" then ".so" else ".pyd")).data)).1 =
      (calculate_module_name model_name).data := by
  rw [import_model_hit db importBeh plat tmp model_name s bytes out _ _ hhit rfl rfl]
  cases himp : importBeh (calculate_module_name model_name)
      [calculate_module_name model_name ++ (if plat ≠ "Windows" then ".so" else ".pyd")] with
  | ok m =>
    refine ⟨by simp, ?_, splitext_module_filename model_name plat⟩
    intro mn cs hmem
    simp only [List.mem_cons, List.not_mem_nil, or_false] at hmem
    rcases hmem with h | h | h | h
    · exact absurd h (by simp)
    · exact absurd h (by simp)
    · exact (Event.importCall.injEq _ _ _ _).mp h |>.2
    · exact absurd h (by simp)
  | error e =>
    refine ⟨by simp, ?_, splitext_module_filename model_name plat⟩
    intro mn cs hmem
    simp only [List.mem_cons, List.not_mem_nil, or_false] at hmem
    rcases hmem with h | h | h
    · exact absurd h (by simp)
    · exact absurd h (by simp)
    · exact (Event.importCall.injEq _ _ _ _).mp h |>.2

theorem spec_c7_scratch_layout_witness :
    Event.importCall "model_0a1b2c3d4e" ["model_0a1b2c3d4e.so"] ∈
      (import_model_extension_module [("models/0a1b2c3d4e", ([0], ""))]
        (fun n _ => Except.ok n) "Linux" "scratch" "models/0a1b2c3d4e"
        ⟨[], []⟩).2.1 :=
  (spec_c7_scratch_layout [("models/0a1b2c3d4e", ([0], ""))] (fun n _ => Except.ok n)
    "Linux" "scratch" "models/0a1b2c3d4e" ⟨[], []⟩ [0] "" rfl).1

/-- C8: on a cache miss the loader raises `KeyError`, returns no module,
leaves the process state untouched, and never invokes compilation (the
trace is empty, so in particular it records no toolchain run). -/
theorem spec_c8_miss_keyerror (db : List (String × (List Nat × String)))
    (importBeh : ImportBeh) (plat tmp model_name : String) (s : PState)
    (hmiss : load_model_extension_module db model_name = none) :
    import_model_extension_module db importBeh plat tmp model_name s =
      (s, ([] : Trace), Except.error LoadErr.keyError) ∧
    toolchainRuns (import_model_extension_module db importBeh plat tmp model_name s).2.1
      = 0 := by
  have h : import_model_extension_module db importBeh plat tmp model_name s =
      (s, ([] : Trace), Except.error LoadErr.keyError) := by
    simp [import_model_extension_module, hmiss]
  refine ⟨h, ?_⟩
  rw [h]
  rfl

theorem spec_c8_miss_keyerror_witness :
    import_model_extension_module [] (fun n _ => Except.ok n) "Linux" "scratch"
        "models/0a1b2c3d4e" ⟨[], []⟩ =
      (⟨[], []⟩, ([] : Trace), Except.error LoadErr.keyError) :=
  (spec_c8_miss_keyerror [] (fun n _ => Except.ok n) "Linux" "scratch"
    "models/0a1b2c3d4e" ⟨[], []⟩ rfl).1

/-- C2 is refuted by the code: `TemporaryDirectory`'s generator has no
`try/finally`, so when the dynamic import raises, the `rmtree` cleanup is
skipped and the scratch directory survives the call.  Concretely: a cache
hit for `models/m` followed by an import failure leaves `scratch`
(containing `model_m.so`) on disk, while the call surfaces the import
error. -/
theorem spec_c2_tempdir_leak_on_error :
    (import_model_extension_module [("models/m", ([0], ""))]
        (fun _ _ => Except.error "ImportError") "Linux" "scratch" "models/m"
        ⟨[], []⟩).1.fs = [("scratch", ["model_m.so"])] ∧
    (import_model_extension_module [("models/m", ([0], ""))]
        (fun _ _ => Except.error "ImportError") "Linux" "scratch" "models/m"
        ⟨[], []⟩).2.2 = Except.error (LoadErr.importError "ImportError") := by
  constructor <;> rfl

/-- C2, complementary half: on the normal (no-exception) path the cleanup
does run, so the leak is specific to the exceptional exit. -/
theorem spec_c2_tempdir_removed_on_success :
    (import_model_extension_module [("models/m", ([0], ""))]
        (fun n _ => Except.ok n) "Linux" "scratch" "models/m"
        ⟨[], []⟩).1.fs = [] := by
  rfl

/-- C10: whenever `_import_module` returns normally, `sys.path` after the
call equals `sys.path` before it: the entry appended for the load is popped
again. -/
theorem spec_c10_sys_path_restored (importBeh : ImportBeh)
    (module_name module_path : String) (s : PState) (m : String)
    (h : (_import_module importBeh module_name module_path s).2.2 = Except.ok m) :
    (_import_module importBeh module_name module_path s).1.sysPath = s.sysPath := by
  obtain ⟨fs0, path0⟩ := s
  simp only [_import_module] at h ⊢
  cases himp : importBeh module_name (dirContentsD fs0 module_path) with
  | ok mm =>
    simp only [himp]
    simp [List.dropLast_concat]
  | error e =>
    rw [himp] at h
    simp at h

theorem spec_c10_sys_path_restored_witness :
    (_import_module (fun n _ => Except.ok n) "model_x" "scratch"
        ⟨[("scratch", ["model_x.so"])], ["/usr/lib"]⟩).1.sysPath =
      (⟨[("scratch", ["model_x.so"])], ["/usr/lib"]⟩ : PState).sysPath :=
  spec_c10_sys_path_restored (fun n _ => Except.ok n) "model_x" "scratch"
    ⟨[("scratch", ["model_x.so"])], ["/usr/lib"]⟩ "model_x" rfl

/-! ## Lemmas about the shutdown warning -/

theorem warn_cons (p : String × Bool) (rest : List (String × Bool)) :
    _warn_unfinished_operations (p :: rest) =
      if p.2 then _warn_unfinished_operations rest
      else warnMessage p.1 :: _warn_unfinished_operations rest := by
  by_cases h : p.2 <;> simp [_warn_unfinished_operations, List.filter_cons, h]

theorem warnMessage_inj (a b : String) (h : warnMessage a = warnMessage b) : a = b := by
  unfold warnMessage at h
  have hd := congrArg String.data h
  rw [String.data_append, String.data_append, String.data_append, String.data_append] at hd
  rw [List.append_assoc, List.append_assoc] at hd
  have h1 := List.append_cancel_left hd
  have h2 := List.append_cancel_right h1
  cases a; cases b
  exact congrArg String.mk h2

theorem warn_count_zero (ops : List (String × Bool)) (name : String)
    (h : name ∉ ops.map Prod.fst) :
    (_warn_unfinished_operations ops).count (warnMessage name) = 0 := by
  induction ops with
  | nil => rfl
  | cons p rest ih =>
    have hp1 : p.1 ≠ name := fun e =>
      h (by rw [List.map_cons, e]; exact List.mem_cons_self _ _)
    have hrest : name ∉ rest.map Prod.fst := fun hm =>
      h (by rw [List.map_cons]; exact List.mem_cons_of_mem _ hm)
    rw [warn_cons]
    by_cases hd : p.2
    · rw [if_pos hd]
      exact ih hrest
    · rw [if_neg hd, List.count_cons, ih hrest]
      have hb : (warnMessage p.1 == warnMessage name) = false := by
        rw [beq_eq_false_iff_ne]
        intro e
        exact hp1 (warnMessage_inj _ _ e)
      rw [hb]
      simp

/-! ## Claim theorems: OperationRegistry shutdown -/

/-- C5: at teardown, every registered operation that is not done produces
exactly one critical diagnostic naming it, and every operation that is done
produces none (operation names are dict keys, hence distinct). -/
theorem spec_c5_shutdown_warns_once (ops : List (String × Bool)) (name : String)
    (hnodup : (ops.map Prod.fst).Nodup) :
    ((name, false) ∈ ops →
      (_warn_unfinished_operations ops).count (warnMessage name) = 1) ∧
    ((name, true) ∈ ops →
      (_warn_unfinished_operations ops).count (warnMessage name) = 0) := by
  induction ops with
  | nil => simp
  | cons p rest ih =>
    rw [List.map_cons, List.nodup_cons] at hnodup
    obtain ⟨hni, hnd⟩ := hnodup
    obtain ⟨ih1, ih2⟩ := ih hnd
    rw [warn_cons]
    constructor
    · intro hmem
      rcases List.mem_cons.mp hmem with he | hm
      · have hp1 : p.1 = name := by rw [← he]
        have hp2 : p.2 = false := by rw [← he]
        rw [if_neg (by rw [hp2]; exact Bool.false_ne_true)]
        rw [List.count_cons, hp1, warn_count_zero rest name (hp1 ▸ hni)]
        simp
      · have hname : name ∈ rest.map Prod.fst :=
          (List.mem_map_of_mem Prod.fst hm : Prod.fst (name, false) ∈ _)
        have hp1 : p.1 ≠ name := fun e => hni (e ▸ hname)
        by_cases hd : p.2
        · rw [if_pos hd]
          exact ih1 hm
        · rw [if_neg hd, List.count_cons, ih1 hm]
          have hb : (warnMessage p.1 == warnMessage name) = false := by
            rw [beq_eq_false_iff_ne]
            intro e
            exact hp1 (warnMessage_inj _ _ e)
          rw [hb]
          simp
    · intro hmem
      rcases List.mem_cons.mp hmem with he | hm
      · have hp1 : p.1 = name := by rw [← he]
        have hp2 : p.2 = true := by rw [← he]
        rw [if_pos hp2]
        exact warn_count_zero rest name (hp1 ▸ hni)
      · have hname : name ∈ rest.map Prod.fst :=
          (List.mem_map_of_mem Prod.fst hm : Prod.fst (name, true) ∈ _)
        have hp1 : p.1 ≠ name := fun e => hni (e ▸ hname)
        by_cases hd : p.2
        · rw [if_pos hd]
          exact ih2 hm
        · rw [if_neg hd, List.count_cons, ih2 hm]
          have hb : (warnMessage p.1 == warnMessage name) = false := by
            rw [beq_eq_false_iff_ne]
            intro e
            exact hp1 (warnMessage_inj _ _ e)
          rw [hb]
          simp

theorem spec_c5_shutdown_warns_once_witness :
    (_warn_unfinished_operations [("fit-1", false), ("fit-2", true)]).count
        (warnMessage "fit-1") = 1 ∧
    (_warn_unfinished_operations [("fit-1", false), ("fit-2", true)]).count
        (warnMessage "fit-2") = 0 :=
  ⟨(spec_c5_shutdown_warns_once [("fit-1", false), ("fit-2", true)] "fit-1"
      (by decide)).1 (by decide),
    (spec_c5_shutdown_warns_once [("fit-1", false), ("fit-2", true)] "fit-2"
      (by decide)).2 (by decide)⟩

/-! ## Lemmas about the memoized build -/

theorem lru_cache_call_hit (env : BuildEnv) (key : BuildKey)
    (st : List (BuildKey × (List Nat × String))) (r : List Nat × String)
    (h : lruLookup st key = some r) :
    lru_cache_call env key st = (st, (([] : Trace), Except.ok r)) := by
  simp [lru_cache_call, h]

theorem run_after_hit (env : CompileEnv) (pc : String) (r : List Nat × String)
    (n : Nat) (st : List (BuildKey × (List Nat × String)))
    (h : lruLookup st (compileKey env pc) = some r) :
    runConcurrentCompiles env pc n st =
      (st, List.replicate n (([] : Trace), Except.ok r)) := by
  induction n with
  | zero => rfl
  | succ n ih =>
    simp [runConcurrentCompiles, compile_model_extension_module,
      lru_cache_call_hit env.build (compileKey env pc) st r h, ih, List.replicate_succ]

theorem run_all_error (env : CompileEnv) (pc : String) (e : String) (n : Nat)
    (he : env.build.toolchain (compileKey env pc) = Except.error e) :
    runConcurrentCompiles env pc n [] =
      ([], List.replicate n ([Event.toolchainRun], Except.error e)) := by
  induction n with
  | zero => rfl
  | succ n ih =>
    simp [runConcurrentCompiles, compile_model_extension_module, lru_cache_call, lruLookup,
      _build_extension_module, he, ih, List.replicate_succ]

/-! ## Claim theorems: BuildOrchestrator -/

/-- C1: for `n ≥ 2` concurrent `compile` calls with the same program code on
the single-threaded event loop, either the native toolchain runs exactly
once and every caller receives the bit-identical (artifact, diagnostics)
pair, or every caller receives the same failure.  (The translator and
toolchain are deterministic in their inputs, per the spec.) -/
theorem spec_c1_concurrent_compiles_coalesce (env : CompileEnv) (pc : String) (n : Nat)
    (hn : 2 ≤ n) :
    (totalToolchainRuns (runConcurrentCompiles env pc n []).2 = 1 ∧
      ∃ res, ∀ r ∈ (runConcurrentCompiles env pc n []).2, r.2 = Except.ok res) ∨
    (∃ e, ∀ r ∈ (runConcurrentCompiles env pc n []).2, r.2 = Except.error e) := by
  cases htc : env.build.toolchain (compileKey env pc) with
  | ok bytes =>
    left
    obtain ⟨m, rfl⟩ : ∃ m, n = m + 1 := ⟨n - 1, by omega⟩
    set res : List Nat × String :=
      (bytes, if env.build.stderrHasFileno then env.build.captured (compileKey env pc)
        else "") with hres
    have hfirst : compile_model_extension_module env pc [] =
        ([(compileKey env pc, res)], ([Event.toolchainRun], Except.ok res)) := by
      simp [compile_model_extension_module, lru_cache_call, lruLookup,
        _build_extension_module, htc, hres]
    have hlook : lruLookup [(compileKey env pc, res)] (compileKey env pc) = some res := by
      simp [lruLookup]
    have hrun : runConcurrentCompiles env pc (m + 1) [] =
        ([(compileKey env pc, res)],
          ([Event.toolchainRun], Except.ok res) ::
            List.replicate m (([] : Trace), Except.ok res)) := by
      simp [runConcurrentCompiles, hfirst,
        run_after_hit env pc res m [(compileKey env pc, res)] hlook]
    rw [hrun]
    constructor
    · simp [totalToolchainRuns, toolchainRuns, List.map_replicate, List.sum_replicate]
    · refine ⟨res, ?_⟩
      intro r hr
      rcases List.mem_cons.mp hr with h | h
      · rw [h]
      · rw [(List.mem_replicate.mp h).2]
  | error e =>
    right
    refine ⟨e, ?_⟩
    rw [run_all_error env pc e n htc]
    intro r hr
    rw [(List.mem_replicate.mp hr).2]

theorem spec_c1_concurrent_compiles_coalesce_witness :
    (totalToolchainRuns (runConcurrentCompiles exampleCompileEnv "data(x)" 2 []).2 = 1 ∧
      ∃ res, ∀ r ∈ (runConcurrentCompiles exampleCompileEnv "data(x)" 2 []).2,
        r.2 = Except.ok res) ∨
    (∃ e, ∀ r ∈ (runConcurrentCompiles exampleCompileEnv "data(x)" 2 []).2,
      r.2 = Except.error e) :=
  spec_c1_concurrent_compiles_coalesce exampleCompileEnv "data(x)" 2 (by decide)

/-- C6: when `sys.stderr` has no working `fileno()`, the descriptor
redirection is skipped and the build still completes, returning the module
bytes with empty captured diagnostics, rather than raising. -/
theorem spec_c6_build_without_fileno (env : BuildEnv) (key : BuildKey) (bytes : List Nat)
    (hfn : env.stderrHasFileno = false) (hok : env.toolchain key = Except.ok bytes) :
    _build_extension_module env key = ([Event.toolchainRun], Except.ok (bytes, "")) := by
  simp [_build_extension_module, hfn, hok]

theorem spec_c6_build_without_fileno_witness :
    _build_extension_module
        ⟨false, fun _ => Except.ok [7], fun _ => "diagnostics"⟩ ("model_m", "cpp", "tpl") =
      ([Event.toolchainRun], Except.ok ([7], "")) :=
  spec_c6_build_without_fileno
    ⟨false, fun _ => Except.ok [7], fun _ => "diagnostics"⟩ ("model_m", "cpp", "tpl")
    [7] rfl rfl

end Httpstan
